import Mathlib

/-!
Verification of the wfc (overlapping Wave Function Collapse) crate.

The crate consists of the module files src/cells.rs, src/patterns.rs,
src/slots.rs, src/tiles.rs used by src/main.rs, plus src/lib.rs which holds
an earlier revision of the core (its own Pattern / Cell / Wave).  Both
revisions are embedded below where a claim depends on them; definitions,
field names and branch structure are kept as close to the Rust source as
Lean allows.  Rust machine integers are modelled by Nat, f64 probabilities
by exact rationals, Vec / Box<[T]> by List, and the per-tile f64 quantities
p and p * log2 p by two parameter functions (p, plogp) on tile ids.
Rust indexing v[i] is modelled by List.getD; HashSet<&Pattern> by a
duplicate-free List of pattern ids; the HashMap of
Cell::ways_to_become_pattern by an association list in insertion order
(every per-key operation of the source is key-local, so map iteration
order does not affect the resulting state).
-/

/-! # Definitions -/

/-! ## Location (src/slots.rs lines 6-41).  The enum order North, East,
South, West is the derived iteration order used throughout the crate. -/

inductive Location where
  | north
  | east
  | south
  | west
deriving DecidableEq, Inhabited

def Location.opposite : Location → Location
  | .north => .south
  | .east => .west
  | .south => .north
  | .west => .east

/-- Fixed direction traversal order North, East, South, West, the order of
strum EnumIter on the Location enum. -/
def dirOrder : List Location := [.north, .east, .south, .west]

/-! ## Slot (src/slots.rs lines 60-97).  A slot holds the sequence of data
values along one edge of a pattern, tagged with the edge direction. -/

structure Slot (Data : Type) where
  data : List Data
  location : Location
deriving DecidableEq

/-- Slot::can_be_adjacent (src/slots.rs lines 76-91): directions must be
opposite, lengths equal, and the data equal element-by-element against the
reverse of the other slot (iter zip rev all). -/
def Slot.canBeAdjacent {Data : Type} [DecidableEq Data] (a b : Slot Data) : Bool :=
  if a.location ≠ b.location.opposite then false
  else if a.data.length ≠ b.data.length then false
  else (a.data.zip b.data.reverse).all (fun pr => decide (pr.1 = pr.2))

/-! ## Pattern (src/patterns.rs lines 5-117). -/

structure Pattern (Data : Type) where
  data : List Data
  size : Nat
deriving DecidableEq

/-- Pattern::new (src/patterns.rs lines 12-20): size is the integer square
root of the data length; the constructor asserts len == size * size (a
panic on failure, modelled as none). -/
def Pattern.new {Data : Type} (data : List Data) : Option (Pattern Data) :=
  let size := Nat.sqrt data.length
  if data.length = size * size then some { data := data, size := size } else none

/-- Rust Iterator::step_by k (k ≥ 1): yields the head, then skips k - 1
elements, repeatedly.  The auxiliary counter holds how many elements remain
to be skipped before the next yield. -/
def stepByAux {A : Type} (k : Nat) : List A → Nat → List A
  | [], _ => []
  | x :: xs, 0 => x :: stepByAux k xs (k - 1)
  | _ :: xs, c + 1 => stepByAux k xs c

def stepBy {A : Type} (k : Nat) (l : List A) : List A := stepByAux k l 0

/-- Pattern::slot (src/patterns.rs lines 22-44):
North = take(size); East = skip(size - 1).step_by(size);
South = skip(len - size); West = step_by(size). -/
def Pattern.slot {Data : Type} (p : Pattern Data) (location : Location) : Slot Data :=
  match location with
  | .north => { data := p.data.take p.size, location := .north }
  | .east => { data := stepBy p.size (p.data.drop (p.size - 1)), location := .east }
  | .south => { data := p.data.drop (p.data.length - p.size), location := .south }
  | .west => { data := stepBy p.size p.data, location := .west }

/-- Pattern::rotate (src/patterns.rs lines 82-91), clockwise 90 degrees.
The source writes, for every row and col below size,
rotated[new_row * size + new_col] := data[row * size + col] with
new_row = col and new_col = (size - 1) - row, into a default-initialised
buffer of the same length.  Reading the write equation at output index
j = new_row * size + new_col gives col = j / size and row = size - 1 - j %
size, so position j of the output holds data[(size - 1 - j % size) * size
+ j / size]; the write map is a bijection of [0, size ^ 2), hence the
closed form below is the content of the written buffer. -/
def Pattern.rotate {Data : Type} [Inhabited Data] (p : Pattern Data) : Pattern Data :=
  { data := (List.range (p.size * p.size)).map
      (fun j => p.data.getD ((p.size - 1 - j % p.size) * p.size + j / p.size) default),
    size := p.size }

/-! ## Cell (src/cells.rs).  Tiles are identified by their dense ids
(src/tiles.rs TileId); the TileTable fields become lists indexed by id.
The two f64 per-tile constants tile.probability and
tile.probability * log2(tile.probability) are abstracted as parameter
functions p and plogp from tile ids to rationals. -/

/-- LocationTable<usize> of support counts for one tile
(src/cells.rs lines 16-19). -/
structure WaysToBecomeTile where
  north : Nat
  east : Nat
  south : Nat
  west : Nat
deriving DecidableEq, Inhabited

def WaysToBecomeTile.get (w : WaysToBecomeTile) : Location → Nat
  | .north => w.north
  | .east => w.east
  | .south => w.south
  | .west => w.west

def WaysToBecomeTile.setLoc (w : WaysToBecomeTile) (loc : Location) (n : Nat) :
    WaysToBecomeTile :=
  match loc with
  | .north => { w with north := n }
  | .east => { w with east := n }
  | .south => { w with south := n }
  | .west => { w with west := n }

/-- WaysToBecomeTile::clear (src/cells.rs lines 32-34): reset to the
default LocationTable, all four counters zero.  This equals the Inhabited
default of the structure. -/
def WaysToBecomeTile.clear : WaysToBecomeTile :=
  { north := 0, east := 0, south := 0, west := 0 }

inductive DecrementWaysToBecomeTileResult where
  | alreadyZero
  | notZero
  | zero
deriving DecidableEq

/-- WaysToBecomeTile::decrement (src/cells.rs lines 36-48): counter 0 is
left alone (AlreadyZero), counter 1 clears the whole table (Zero), any
larger counter is decremented by one (NotZero). -/
def WaysToBecomeTile.decrement (w : WaysToBecomeTile) (location : Location) :
    WaysToBecomeTile × DecrementWaysToBecomeTileResult :=
  match w.get location with
  | 0 => (w, .alreadyZero)
  | 1 => (WaysToBecomeTile.clear, .zero)
  | n + 2 => (w.setLoc location (n + 1), .notZero)

/-- Cell (src/cells.rs lines 65-72).  tiles holds the presence of each
tile id (Option<&Tile> becomes Bool); the two cached entropy sums are
rationals standing for the f64 fields. -/
structure Cell where
  waysToBecomeTile : List WaysToBecomeTile
  tiles : List Bool
  numRemainingTiles : Nat
  sumWeights : ℚ
  sumWeightLogWeight : ℚ
deriving DecidableEq, Inhabited

/-- Cell::update_entropy_constants (src/cells.rs lines 207-210): subtract
the tile probability and probability * log2(probability). -/
def Cell.updateEntropyConstants (p plogp : Nat → ℚ) (c : Cell) (tile : Nat) : Cell :=
  { c with
    sumWeights := c.sumWeights - p tile,
    sumWeightLogWeight := c.sumWeightLogWeight - plogp tile }

/-- Cell::remove_tile (src/cells.rs lines 197-205): swap the tile entry
with None (returning the previous entry), decrement num_remaining_tiles,
update the entropy constants. -/
def Cell.removeTile (p plogp : Nat → ℚ) (c : Cell) (removed : Nat) : Cell × Option Nat :=
  let out := if c.tiles.getD removed false then some removed else none
  (Cell.updateEntropyConstants p plogp
    { c with
      tiles := c.tiles.set removed false,
      numRemainingTiles := c.numRemainingTiles - 1 } removed,
   out)

/-- Cell::removed_neighbor_tile (src/cells.rs lines 183-195): decrement the
support count of the removed neighbour tile in the given direction;
AlreadyZero and NotZero return None, Zero removes the tile and returns it. -/
def Cell.removedNeighborTile (p plogp : Nat → ℚ) (c : Cell) (removed : Nat)
    (removedLocation : Location) : Cell × Option Nat :=
  match (c.waysToBecomeTile.getD removed default).decrement removedLocation with
  | (_, .alreadyZero) => (c, none)
  | (w2, .notZero) =>
    ({ c with waysToBecomeTile := c.waysToBecomeTile.set removed w2 }, none)
  | (w2, .zero) =>
    Cell.removeTile p plogp
      { c with waysToBecomeTile := c.waysToBecomeTile.set removed w2 } removed

/-- Cell::collapse (src/cells.rs lines 152-181).  The chosen tile (selected
in the source by weighted sampling from the rng) is a parameter.  The
source sets tiles[chosen] = None, swaps the table with a fresh table that
holds only the chosen tile, sets num_remaining_tiles = 1, and for every
previously remaining tile other than the chosen one (in tile-id order)
clears its support table and subtracts its entropy constants; the list of
those tiles is returned for propagation. -/
def Cell.collapse (p plogp : Nat → ℚ) (c : Cell) (chosen : Nat) : Cell × List Nat :=
  let tilesWithChosenCleared := c.tiles.set chosen false
  let removedList := (List.range tilesWithChosenCleared.length).filter
    (fun t => tilesWithChosenCleared.getD t false)
  let newTiles := (List.replicate c.tiles.length false).set chosen true
  let base := { c with tiles := newTiles, numRemainingTiles := 1 }
  (removedList.foldl
    (fun acc t =>
      Cell.updateEntropyConstants p plogp
        { acc with waysToBecomeTile := acc.waysToBecomeTile.set t WaysToBecomeTile.clear }
        t)
    base,
   removedList)

/-- Cell::new as seeded by Wave::new (src/cells.rs lines 75-90): every tile
present, num_remaining_tiles = tiles.len(), entropy sums over all tile
probabilities.  The support table comes from the adjacency counts and has
one entry per tile. -/
def mkFreshCell (p plogp : Nat → ℚ) (numTiles : Nat)
    (ways : List WaysToBecomeTile) : Cell :=
  { waysToBecomeTile := ways,
    tiles := List.replicate numTiles true,
    numRemainingTiles := numTiles,
    sumWeights := ((List.range numTiles).map p).sum,
    sumWeightLogWeight := ((List.range numTiles).map plogp).sum }

/-- Cell states reachable from a freshly constructed cell (all tiles
present, one support table per tile) by Cell::collapse on a remaining tile
and by Cell::removed_neighbor_tile. -/
inductive ReachableCell (p plogp : Nat → ℚ) : Cell → Prop where
  | init (numTiles : Nat) (ways : List WaysToBecomeTile)
      (hlen : ways.length = numTiles) :
      ReachableCell p plogp (mkFreshCell p plogp numTiles ways)
  | collapseStep (c : Cell) (chosen : Nat) (hreach : ReachableCell p plogp c)
      (hmem : c.tiles.getD chosen false = true) :
      ReachableCell p plogp (Cell.collapse p plogp c chosen).1
  | removedStep (c : Cell) (t : Nat) (loc : Location)
      (hreach : ReachableCell p plogp c) :
      ReachableCell p plogp (Cell.removedNeighborTile p plogp c t loc).1

/-- The invariant behind claim C10: a tile absent from the remaining set
has all four support counts cleared. -/
def CellSupportInvariant (c : Cell) : Prop :=
  ∀ t, c.tiles.getD t false = false →
    c.waysToBecomeTile.getD t default = WaysToBecomeTile.clear

/-! ## The earlier Wave revision (src/lib.rs).  This is the only Wave
implementation under src/: Pattern adjacency is a HashMap from pattern ids
to a LocationTable of HashSets of pattern ids, a cell holds its remaining
tiles (as pattern ids, tiles and patterns being in bijection) and its own
copy of that map, and Wave::collapse drives selection and propagation. -/

/-- LocationTable<HashSet<&Pattern>> (src/lib.rs line 104): the sets of
patterns that may sit on each side, as duplicate-free lists. -/
structure OldAdj where
  north : List Nat
  east : List Nat
  south : List Nat
  west : List Nat
deriving DecidableEq, Inhabited

/-- Remove a pattern from the set on one side
(src/lib.rs lines 249-250: possible.remove(removed.pattern)). -/
def OldAdj.removePattern (a : OldAdj) (loc : Location) (pat : Nat) : OldAdj :=
  match loc with
  | .north => { a with north := a.north.filter (fun x => decide (x ≠ pat)) }
  | .east => { a with east := a.east.filter (fun x => decide (x ≠ pat)) }
  | .south => { a with south := a.south.filter (fun x => decide (x ≠ pat)) }
  | .west => { a with west := a.west.filter (fun x => decide (x ≠ pat)) }

/-- The four-way intersection count (src/lib.rs lines 253-261):
north ∩ east ∩ south ∩ west, counted. -/
def OldAdj.intersectCount (a : OldAdj) : Nat :=
  (((a.north.filter (fun x => a.east.contains x)).filter
      (fun x => a.south.contains x)).filter
      (fun x => a.west.contains x)).length

/-- A cell of the earlier revision (src/lib.rs lines 193-200): the
remaining tiles (by pattern id) and the per-pattern adjacency map
(association list keyed by pattern id). -/
structure OldCell where
  tiles : List Nat
  waysToBecomePattern : List (Nat × OldAdj)
deriving DecidableEq, Inhabited

/-- Cell::entropy of the earlier revision (src/lib.rs lines 220-226):
minus the sum of probability * log2(probability) over remaining tiles,
with the f64 summand abstracted by plogp.  Only the ordering of entropies
matters to the embedded code, so the summands are carried as integers
(which compute under kernel reduction). -/
def OldCell.entropy (plogp : Nat → Int) (c : OldCell) : Int :=
  -((c.tiles.map plogp).sum)

/-- Cell::removed_neighbor_tile of the earlier revision
(src/lib.rs lines 245-274): remove the pattern from every entry's set on
the given side, collect the keys whose four-way intersection became empty,
drop those keys from the map and drop the tiles with those patterns.
Note the unit return type: the eliminated tiles are not reported. -/
def OldCell.removedNeighborTile (c : OldCell) (neighborLocation : Location)
    (removedPattern : Nat) : OldCell :=
  let newWays := c.waysToBecomePattern.map
    (fun entry => (entry.1, entry.2.removePattern neighborLocation removedPattern))
  let patternsToRemove := (newWays.filter
    (fun entry => decide (entry.2.intersectCount = 0))).map (fun entry => entry.1)
  { tiles := c.tiles.filter (fun t => decide (t ∉ patternsToRemove)),
    waysToBecomePattern :=
      newWays.filter (fun entry => decide (entry.1 ∉ patternsToRemove)) }

/-- Cell::collapse of the earlier revision (src/lib.rs lines 228-243): when
not yet collapsed, remove the tile sampled from the weighted distribution
(the sampled index, drawn in the source from thread_rng, is the rTile
parameter reduced modulo the number of remaining tiles), keep it as the
only remaining tile and return all others; when already collapsed return
nothing. -/
def OldCell.collapse (c : OldCell) (rTile : Nat) : OldCell × List Nat :=
  if c.tiles.length ≠ 1 then
    let index := rTile % c.tiles.length
    let collapsedTo := c.tiles.getD index 0
    let out := c.tiles.take index ++ c.tiles.drop (index + 1)
    ({ c with tiles := [collapsedTo] }, out)
  else (c, [])

structure OldWave where
  cells : List OldCell
  xCells : Nat
  yCells : Nat
deriving DecidableEq, Inhabited

/-- Wave::get_neighbors (src/lib.rs lines 324-334): toroidal North, East,
South, West neighbour indices of a cell index. -/
def OldWave.getNeighbors (w : OldWave) (index : Nat) : List Nat :=
  let row := index / w.xCells
  let col := index % w.xCells
  [((row + w.yCells - 1) % w.yCells) * w.xCells + col,
   row * w.xCells + (col + 1) % w.xCells,
   ((row + 1) % w.yCells) * w.xCells + col,
   row * w.xCells + (col + w.xCells - 1) % w.xCells]

def OldWave.setCell (w : OldWave) (index : Nat) (c : OldCell) : OldWave :=
  { w with cells := w.cells.set index c }

/-- Stable insert for descending order by key; models one step of Rust's
stable sort_by with comparator b.entropy().partial_cmp(a.entropy()). -/
def insertByKeyDesc (key : Nat → Int) (x : Nat) : List Nat → List Nat
  | [] => [x]
  | y :: ys => if key y ≤ key x then x :: y :: ys else y :: insertByKeyDesc key x ys

/-- Stable sort, descending by key. -/
def sortByKeyDesc (key : Nat → Int) : List Nat → List Nat
  | [] => []
  | x :: xs => insertByKeyDesc key x (sortByKeyDesc key xs)

/-- Wave::get_highest_entropy (src/lib.rs lines 317-322): enumerate ALL
cells (collapsed ones included), sort the pairs by entropy in descending
order, and return all the indices. -/
def OldWave.getHighestEntropy (plogp : Nat → Int) (w : OldWave) : List Nat :=
  sortByKeyDesc (fun i => OldCell.entropy plogp (w.cells.getD i default))
    (List.range w.cells.length)

/-- The propagation loop of Wave::collapse (src/lib.rs lines 354-363):
pop events front-first; for each event visit the four neighbours in the
fixed order North, East, South, West and call removed_neighbor_tile with
the opposite direction.  Nothing is ever pushed onto the queue, so the
recursion is on the initial queue only; the processed events are returned
as the second component. -/
def OldWave.drain : List (Nat × Nat) → OldWave → OldWave × List (Nat × Nat)
  | [], w => (w, [])
  | (cellIndex, tile) :: rest, w =>
    let w2 := (dirOrder.zip (w.getNeighbors cellIndex)).foldl
      (fun acc pr =>
        acc.setCell pr.2
          ((acc.cells.getD pr.2 default).removedNeighborTile pr.1.opposite tile))
      w
    let r := OldWave.drain rest w2
    (r.1, (cellIndex, tile) :: r.2)

/-- Wave::collapse (src/lib.rs lines 336-366).  The two thread_rng draws
are surfaced as the parameters r (gen_range over the whole candidate
list) and rTile (the weighted-sample draw inside Cell::collapse); the
function picks candidate r mod len from get_highest_entropy, collapses
that cell, drains the queue of its removed tiles, and returns true
unconditionally — there is no error type, no already-collapsed check and
no contradiction check in this revision. -/
def OldWave.collapse (plogp : Nat → Int) (w : OldWave) (r rTile : Nat) :
    OldWave × Bool :=
  let highestEntropy := w.getHighestEntropy plogp
  let index := highestEntropy.getD (r % highestEntropy.length) 0
  let cr := (w.cells.getD index default).collapse rTile
  let w1 := w.setCell index cr.1
  let dr := OldWave.drain (cr.2.map (fun tile => (index, tile))) w1
  (dr.1, true)

/-! # Theorems -/

/-! ## List access lemmas for the getD model of Rust indexing. -/

theorem listGetD_nil {A : Type} (i : Nat) (d : A) : ([] : List A).getD i d = d := rfl

theorem listGetD_cons_zero {A : Type} (a : A) (l : List A) (d : A) :
    (a :: l).getD 0 d = a := rfl

theorem listGetD_cons_succ {A : Type} (a : A) (l : List A) (i : Nat) (d : A) :
    (a :: l).getD (i + 1) d = l.getD i d := rfl

theorem listGetD_set_self {A : Type} (l : List A) (i : Nat) (a d : A) :
    (l.set i a).getD i d = if i < l.length then a else d := by
  induction l generalizing i with
  | nil => simp [List.set]
  | cons x xs ih =>
    cases i with
    | zero => simp [List.set, listGetD_cons_zero]
    | succ n =>
      simp only [List.set, listGetD_cons_succ, ih, List.length_cons]
      by_cases h : n < xs.length
      · simp [h, Nat.succ_lt_succ h]
      · simp [h, fun hh => h (Nat.lt_of_succ_lt_succ hh)]

theorem listGetD_set_ne {A : Type} (l : List A) (i j : Nat) (a d : A) (h : i ≠ j) :
    (l.set i a).getD j d = l.getD j d := by
  induction l generalizing i j with
  | nil => simp [List.set]
  | cons x xs ih =>
    cases i with
    | zero =>
      cases j with
      | zero => exact absurd rfl h
      | succ m => simp [List.set, listGetD_cons_succ]
    | succ n =>
      cases j with
      | zero => simp [List.set, listGetD_cons_zero]
      | succ m =>
        simp only [List.set, listGetD_cons_succ]
        exact ih n m (by omega)

theorem listGetD_drop {A : Type} (l : List A) (n i : Nat) (d : A) :
    (l.drop n).getD i d = l.getD (n + i) d := by
  induction n generalizing l with
  | zero => simp
  | succ m ih =>
    cases l with
    | nil => simp [listGetD_nil]
    | cons x xs =>
      simp only [List.drop_succ_cons, ih]
      have : m + 1 + i = (m + i) + 1 := by omega
      rw [this, listGetD_cons_succ]

theorem listGetD_take {A : Type} (l : List A) (n i : Nat) (d : A) (h : i < n) :
    (l.take n).getD i d = l.getD i d := by
  induction l generalizing n i with
  | nil => simp [listGetD_nil]
  | cons x xs ih =>
    cases n with
    | zero => omega
    | succ m =>
      cases i with
      | zero => simp [List.take, listGetD_cons_zero]
      | succ k =>
        simp only [List.take, listGetD_cons_succ]
        exact ih m k (by omega)

theorem listGetD_oob {A : Type} (l : List A) (i : Nat) (d : A) (h : l.length ≤ i) :
    l.getD i d = d := by
  induction l generalizing i with
  | nil => rfl
  | cons x xs ih =>
    cases i with
    | zero => simp at h
    | succ k =>
      rw [listGetD_cons_succ]
      exact ih k (by simpa using h)

/-! ## Claim C9: Slot::can_be_adjacent. -/

theorem zip_all_eq_pointwise {A : Type} [DecidableEq A] (l m : List A)
    (h : l.length = m.length) :
    ((l.zip m).all (fun pr => decide (pr.1 = pr.2)) = true) ↔
      (∀ i, i < l.length → l.get? i = m.get? i) := by
  induction l generalizing m with
  | nil => simp
  | cons x xs ih =>
    cases m with
    | nil => simp at h
    | cons y ys =>
      simp only [List.zip_cons_cons, List.all_cons, Bool.and_eq_true, decide_eq_true_eq]
      constructor
      · rintro ⟨hxy, hall⟩ i hi
        cases i with
        | zero => simp [hxy]
        | succ k =>
          simp only [List.get?_cons_succ]
          exact ((ih ys (by simpa using h)).mp hall) k (by simpa using hi)
      · intro hall
        refine ⟨by simpa using hall 0 (by simp), ?_⟩
        refine (ih ys (by simpa using h)).mpr ?_
        intro i hi
        simpa using hall (i + 1) (by simpa using hi)

theorem reverse_get? {A : Type} (l : List A) (i : Nat) (h : i < l.length) :
    l.reverse.get? i = l.get? (l.length - 1 - i) := by
  rw [List.get?_eq_get (by simpa using h),
      List.get?_eq_get (by omega)]
  congr 1
  rw [List.get_reverse' l ⟨i, by simpa using h⟩ (by simp; omega)]

/-- Claim C9: can_abut(a, b) is true iff a's direction is the opposite of
b's direction, the data sequences have equal length, and a's data equals
the reverse of b's data element-by-element. -/
theorem c9_can_abut {Data : Type} [DecidableEq Data] (a b : Slot Data) :
    a.canBeAdjacent b = true ↔
      (a.location = b.location.opposite ∧ a.data.length = b.data.length ∧
        ∀ i, i < a.data.length →
          a.data.get? i = b.data.get? (b.data.length - 1 - i)) := by
  unfold Slot.canBeAdjacent
  by_cases hloc : a.location = b.location.opposite
  · by_cases hlen : a.data.length = b.data.length
    · rw [if_neg (by simpa using hloc), if_neg (by simpa using hlen)]
      rw [zip_all_eq_pointwise a.data b.data.reverse (by simpa using hlen)]
      constructor
      · intro hall
        refine ⟨hloc, hlen, ?_⟩
        intro i hi
        have h2 := hall i hi
        rwa [reverse_get? b.data i (by omega)] at h2
      · rintro ⟨-, -, hall⟩ i hi
        rw [reverse_get? b.data i (by omega)]
        exact hall i hi
    · rw [if_neg (by simpa using hloc), if_pos (by simpa using hlen)]
      simp [hlen]
  · rw [if_pos (by simpa using hloc)]
    simp [hloc]

/-- Concrete instance of claim C9: the slot [1,1,1] at North can abut the
slot [1,1,1] at South. -/
theorem c9_can_abut_witness :
    Slot.canBeAdjacent
      { data := [1, 1, 1], location := Location.north }
      { data := ([1, 1, 1] : List Nat), location := Location.south } = true :=
  (c9_can_abut
    { data := [1, 1, 1], location := Location.north }
    { data := ([1, 1, 1] : List Nat), location := Location.south }).mpr
    (by refine ⟨rfl, rfl, ?_⟩; decide)

/-! ## Claim C5: Pattern::slot edge slices. -/

theorem stepByAux_getD {A : Type} (k : Nat) (hk : 1 ≤ k) (l : List A) (c i : Nat) (d : A) :
    (stepByAux k l c).getD i d = l.getD (c + i * k) d := by
  induction l generalizing c i with
  | nil => simp [stepByAux, listGetD_nil]
  | cons x xs ih =>
    cases c with
    | zero =>
      cases i with
      | zero => simp [stepByAux, listGetD_cons_zero]
      | succ n =>
        show (x :: stepByAux k xs (k - 1)).getD (n + 1) d = (x :: xs).getD (0 + (n + 1) * k) d
        rw [listGetD_cons_succ, ih (k - 1) n]
        have harith : 0 + (n + 1) * k = (k - 1 + n * k) + 1 := by
          rw [Nat.succ_mul]
          omega
        rw [harith, listGetD_cons_succ]
    | succ m =>
      show (stepByAux k xs m).getD i d = (x :: xs).getD (m + 1 + i * k) d
      rw [ih m i]
      have harith : m + 1 + i * k = (m + i * k) + 1 := by omega
      rw [harith, listGetD_cons_succ]

theorem stepBy_getD {A : Type} (k : Nat) (hk : 1 ≤ k) (l : List A) (i : Nat) (d : A) :
    (stepBy k l).getD i d = l.getD (i * k) d := by
  rw [stepBy, stepByAux_getD k hk l 0 i d, Nat.zero_add]

/-- Claim C5: the North slot is the first row left-to-right, East the
rightmost column top-to-bottom, South the last row left-to-right, West the
leftmost column top-to-bottom; and on the 3x3 example 1..9 the four slots
are [1,2,3], [3,6,9], [7,8,9], [1,4,7]. -/
theorem c5_edge_slices {Data : Type} (p : Pattern Data) (d : Data) (i : Nat)
    (hsize : 1 ≤ p.size) (hlen : p.data.length = p.size * p.size) (hi : i < p.size) :
    ((p.slot .north).data.getD i d = p.data.getD i d
      ∧ (p.slot .east).data.getD i d = p.data.getD (i * p.size + (p.size - 1)) d
      ∧ (p.slot .south).data.getD i d = p.data.getD ((p.size - 1) * p.size + i) d
      ∧ (p.slot .west).data.getD i d = p.data.getD (i * p.size) d)
    ∧ (Pattern.slot { data := ([1,2,3,4,5,6,7,8,9] : List Nat), size := 3 }
        Location.north).data = [1,2,3]
    ∧ (Pattern.slot { data := ([1,2,3,4,5,6,7,8,9] : List Nat), size := 3 }
        Location.east).data = [3,6,9]
    ∧ (Pattern.slot { data := ([1,2,3,4,5,6,7,8,9] : List Nat), size := 3 }
        Location.south).data = [7,8,9]
    ∧ (Pattern.slot { data := ([1,2,3,4,5,6,7,8,9] : List Nat), size := 3 }
        Location.west).data = [1,4,7] := by
  refine ⟨⟨?_, ?_, ?_, ?_⟩, by decide, by decide, by decide, by decide⟩
  · show (p.data.take p.size).getD i d = p.data.getD i d
    exact listGetD_take p.data p.size i d hi
  · show (stepBy p.size (p.data.drop (p.size - 1))).getD i d = _
    rw [stepBy_getD p.size hsize _ i d, listGetD_drop]
    congr 1
    omega
  · show (p.data.drop (p.data.length - p.size)).getD i d = _
    rw [listGetD_drop]
    congr 1
    rw [hlen, Nat.sub_mul, Nat.one_mul]
  · show (stepBy p.size p.data).getD i d = _
    exact stepBy_getD p.size hsize p.data i d

/-- Concrete instance of claim C5 at the 3x3 example with i = 1: the middle
entries of the four edge slices are data[1], data[5], data[7], data[3]. -/
theorem c5_edge_slices_witness :
    ((({ data := ([1,2,3,4,5,6,7,8,9] : List Nat), size := 3 } : Pattern Nat).slot
        .north).data.getD 1 0 =
      (([1,2,3,4,5,6,7,8,9] : List Nat)).getD 1 0
      ∧ (({ data := ([1,2,3,4,5,6,7,8,9] : List Nat), size := 3 } : Pattern Nat).slot
        .east).data.getD 1 0 =
      (([1,2,3,4,5,6,7,8,9] : List Nat)).getD (1 * 3 + (3 - 1)) 0
      ∧ (({ data := ([1,2,3,4,5,6,7,8,9] : List Nat), size := 3 } : Pattern Nat).slot
        .south).data.getD 1 0 =
      (([1,2,3,4,5,6,7,8,9] : List Nat)).getD ((3 - 1) * 3 + 1) 0
      ∧ (({ data := ([1,2,3,4,5,6,7,8,9] : List Nat), size := 3 } : Pattern Nat).slot
        .west).data.getD 1 0 =
      (([1,2,3,4,5,6,7,8,9] : List Nat)).getD (1 * 3) 0)
    ∧ (Pattern.slot { data := ([1,2,3,4,5,6,7,8,9] : List Nat), size := 3 }
        Location.north).data = [1,2,3]
    ∧ (Pattern.slot { data := ([1,2,3,4,5,6,7,8,9] : List Nat), size := 3 }
        Location.east).data = [3,6,9]
    ∧ (Pattern.slot { data := ([1,2,3,4,5,6,7,8,9] : List Nat), size := 3 }
        Location.south).data = [7,8,9]
    ∧ (Pattern.slot { data := ([1,2,3,4,5,6,7,8,9] : List Nat), size := 3 }
        Location.west).data = [1,4,7] :=
  c5_edge_slices { data := ([1,2,3,4,5,6,7,8,9] : List Nat), size := 3 } 0 1
    (by decide) (by decide) (by decide)

/-! ## Claim C6: Pattern::rotate. -/

theorem listGetD_map_range {A : Type} (f : Nat → A) (n i : Nat) (d : A) :
    ((List.range n).map f).getD i d = if i < n then f i else d := by
  by_cases h : i < n
  · rw [if_pos h, List.getD_eq_get?, List.get?_map, List.get?_range h]
    rfl
  · rw [if_neg h, List.getD_eq_get?, List.get?_eq_none.mpr (by simpa using Nat.le_of_not_lt h)]
    rfl

/-- Claim C6: rotate is the clockwise quarter turn, moving the cell at
(r, c) to (c, size - 1 - r), and the 3x3 example 1..9 rotates to
[[7,4,1],[8,5,2],[9,6,3]]. -/
theorem c6_rotate {Data : Type} [Inhabited Data] (p : Pattern Data) (r c : Nat)
    (hlen : p.data.length = p.size * p.size) (hr : r < p.size) (hc : c < p.size) :
    (p.rotate.data.getD (c * p.size + (p.size - 1 - r)) default
      = p.data.getD (r * p.size + c) default)
    ∧ p.rotate.size = p.size
    ∧ ({ data := ([1,2,3,4,5,6,7,8,9] : List Nat), size := 3 } : Pattern Nat).rotate.data
      = [7,4,1,8,5,2,9,6,3] := by
  refine ⟨?_, rfl, by decide⟩
  have hN : 1 ≤ p.size := by omega
  have hj : c * p.size + (p.size - 1 - r) < p.size * p.size := by
    have h1 : p.size - 1 - r < p.size := by omega
    calc c * p.size + (p.size - 1 - r) < c * p.size + p.size := by omega
    _ = (c + 1) * p.size := by ring
    _ ≤ p.size * p.size := Nat.mul_le_mul_right p.size (by omega)
  show ((List.range (p.size * p.size)).map _).getD _ default = _
  rw [listGetD_map_range _ _ _ default, if_pos hj]
  have hmod : (c * p.size + (p.size - 1 - r)) % p.size = p.size - 1 - r := by
    rw [Nat.mul_comm c p.size, Nat.mul_add_mod]
    exact Nat.mod_eq_of_lt (by omega)
  have hdiv : (c * p.size + (p.size - 1 - r)) / p.size = c := by
    rw [Nat.mul_comm c p.size, Nat.mul_add_div (by omega)]
    rw [Nat.div_eq_of_lt (by omega)]
    omega
  rw [hmod, hdiv]
  have harg : p.size - 1 - (p.size - 1 - r) = r := by omega
  rw [harg]

/-- Concrete instance of claim C6 at the 3x3 example with r = 0, c = 0: the
corner 1 moves to position (0, 2), and the rotated data is
[7,4,1,8,5,2,9,6,3]. -/
theorem c6_rotate_witness :
    (({ data := ([1,2,3,4,5,6,7,8,9] : List Nat), size := 3 } : Pattern Nat).rotate.data.getD
        (0 * 3 + (3 - 1 - 0)) default
      = (([1,2,3,4,5,6,7,8,9] : List Nat)).getD (0 * 3 + 0) default)
    ∧ ({ data := ([1,2,3,4,5,6,7,8,9] : List Nat), size := 3 } : Pattern Nat).rotate.size = 3
    ∧ ({ data := ([1,2,3,4,5,6,7,8,9] : List Nat), size := 3 } : Pattern Nat).rotate.data
      = [7,4,1,8,5,2,9,6,3] :=
  c6_rotate { data := ([1,2,3,4,5,6,7,8,9] : List Nat), size := 3 } 0 0
    (by decide) (by decide) (by decide)

/-! ## Claim C8: Pattern::new succeeds exactly on perfect-square lengths. -/

theorem patternNew_eq {Data : Type} (l : List Data) :
    Pattern.new l =
      if l.length = Nat.sqrt l.length * Nat.sqrt l.length
      then some { data := l, size := Nat.sqrt l.length } else none := rfl

/-- Claim C8: construction succeeds iff the data length is a perfect
square, in which case the size is its square root and the data is stored
unchanged. -/
theorem c8_pattern_new {Data : Type} (l : List Data) :
    ((Pattern.new l).isSome = true ↔ ∃ k, l.length = k * k)
    ∧ (∀ pat, Pattern.new l = some pat →
        pat.size = Nat.sqrt l.length ∧ pat.data = l) := by
  rw [patternNew_eq]
  by_cases h : l.length = Nat.sqrt l.length * Nat.sqrt l.length
  · rw [if_pos h]
    refine ⟨⟨fun _ => ⟨Nat.sqrt l.length, h⟩, fun _ => rfl⟩, ?_⟩
    intro pat hp
    rw [Option.some_inj] at hp
    rw [← hp]
    exact ⟨rfl, rfl⟩
  · rw [if_neg h]
    refine ⟨⟨fun hs => by simp at hs, ?_⟩, fun pat hp => by simp at hp⟩
    rintro ⟨k, hk⟩
    have hsq : Nat.sqrt l.length = k := by rw [hk]; exact Nat.sqrt_eq k
    exact absurd (by rw [hsq, ← hk]) h

/-- Concrete instance of claim C8: a 4-element data sequence builds a
pattern of size 2. -/
theorem c8_pattern_new_witness :
    (Pattern.new ([1, 2, 3, 4] : List Nat)).isSome = true ∧
      ∀ pat, Pattern.new ([1, 2, 3, 4] : List Nat) = some pat →
        pat.size = Nat.sqrt 4 ∧ pat.data = [1, 2, 3, 4] :=
  ⟨(c8_pattern_new ([1, 2, 3, 4] : List Nat)).1.mpr ⟨2, by decide⟩,
   fun pat hp => (c8_pattern_new ([1, 2, 3, 4] : List Nat)).2 pat hp⟩

/-! ## Claim C4: Cell::removed_neighbor_tile branch behaviour. -/

theorem waysDefault_eq_clear : (default : WaysToBecomeTile) = WaysToBecomeTile.clear := rfl

theorem waysClear_get (loc : Location) : WaysToBecomeTile.clear.get loc = 0 := by
  cases loc <;> rfl

theorem waysGet_setLoc_self (w : WaysToBecomeTile) (loc : Location) (n : Nat) :
    (w.setLoc loc n).get loc = n := by
  cases loc <;> rfl

theorem decrement_eq_alreadyZero (w : WaysToBecomeTile) (loc : Location)
    (h : w.get loc = 0) : w.decrement loc = (w, .alreadyZero) := by
  unfold WaysToBecomeTile.decrement
  rw [h]

theorem decrement_eq_zero (w : WaysToBecomeTile) (loc : Location)
    (h : w.get loc = 1) : w.decrement loc = (WaysToBecomeTile.clear, .zero) := by
  unfold WaysToBecomeTile.decrement
  rw [h]

theorem decrement_eq_notZero (w : WaysToBecomeTile) (loc : Location) (n : Nat)
    (h : w.get loc = n + 2) : w.decrement loc = (w.setLoc loc (n + 1), .notZero) := by
  unfold WaysToBecomeTile.decrement
  rw [h]

theorem ways_inRange_of_get_ne_zero (c : Cell) (t : Nat) (loc : Location)
    (h : (c.waysToBecomeTile.getD t default).get loc ≠ 0) :
    t < c.waysToBecomeTile.length := by
  by_contra hh
  rw [listGetD_oob _ _ _ (Nat.le_of_not_lt hh)] at h
  exact h (waysClear_get loc)

theorem tiles_inRange_of_getD_true (c : Cell) (t : Nat)
    (h : c.tiles.getD t false = true) : t < c.tiles.length := by
  by_contra hh
  rw [listGetD_oob _ _ _ (Nat.le_of_not_lt hh)] at h
  exact Bool.false_ne_true h

/-- Claim C4: on_neighbor_tile_eliminated(t, d) is a no-op returning None
when support[t][d] is already 0; returns None after decrementing when the
counter stays nonzero (all other cell state unchanged); and when the
counter drops from 1 to 0 (with t still remaining) it removes t, decrements
the remaining count, subtracts p_t and p_t * log2(p_t) from the cached
sums, clears t's support and returns Some(t). -/
theorem c4_on_neighbor_tile_eliminated (p plogp : Nat → ℚ) (c : Cell) (t : Nat)
    (loc : Location) :
    ((c.waysToBecomeTile.getD t default).get loc = 0 →
      Cell.removedNeighborTile p plogp c t loc = (c, none))
    ∧ (∀ n, (c.waysToBecomeTile.getD t default).get loc = n + 2 →
        (Cell.removedNeighborTile p plogp c t loc).2 = none
        ∧ ((Cell.removedNeighborTile p plogp c t loc).1.waysToBecomeTile.getD t
            default).get loc = n + 1
        ∧ (Cell.removedNeighborTile p plogp c t loc).1.tiles = c.tiles
        ∧ (Cell.removedNeighborTile p plogp c t loc).1.numRemainingTiles
            = c.numRemainingTiles
        ∧ (Cell.removedNeighborTile p plogp c t loc).1.sumWeights = c.sumWeights
        ∧ (Cell.removedNeighborTile p plogp c t loc).1.sumWeightLogWeight
            = c.sumWeightLogWeight)
    ∧ ((c.waysToBecomeTile.getD t default).get loc = 1 →
        c.tiles.getD t false = true →
        (Cell.removedNeighborTile p plogp c t loc).2 = some t
        ∧ (Cell.removedNeighborTile p plogp c t loc).1.tiles.getD t false = false
        ∧ (Cell.removedNeighborTile p plogp c t loc).1.numRemainingTiles
            = c.numRemainingTiles - 1
        ∧ (Cell.removedNeighborTile p plogp c t loc).1.sumWeights = c.sumWeights - p t
        ∧ (Cell.removedNeighborTile p plogp c t loc).1.sumWeightLogWeight
            = c.sumWeightLogWeight - plogp t
        ∧ (Cell.removedNeighborTile p plogp c t loc).1.waysToBecomeTile.getD t default
            = WaysToBecomeTile.clear) := by
  refine ⟨?_, ?_, ?_⟩
  · intro h
    unfold Cell.removedNeighborTile
    rw [decrement_eq_alreadyZero _ _ h]
  · intro n h
    have htlen : t < c.waysToBecomeTile.length :=
      ways_inRange_of_get_ne_zero c t loc (by omega)
    unfold Cell.removedNeighborTile
    rw [decrement_eq_notZero _ _ n h]
    refine ⟨rfl, ?_, rfl, rfl, rfl, rfl⟩
    show ((c.waysToBecomeTile.set t _).getD t default).get loc = n + 1
    rw [listGetD_set_self, if_pos htlen, waysGet_setLoc_self]
  · intro h hmem
    have htlen : t < c.waysToBecomeTile.length :=
      ways_inRange_of_get_ne_zero c t loc (by omega)
    have httiles : t < c.tiles.length := tiles_inRange_of_getD_true c t hmem
    unfold Cell.removedNeighborTile
    rw [decrement_eq_zero _ _ h]
    unfold Cell.removeTile Cell.updateEntropyConstants
    refine ⟨?_, ?_, rfl, rfl, rfl, ?_⟩
    · show (if c.tiles.getD t false then some t else none) = some t
      rw [hmem, if_pos rfl]
    · show ((c.tiles.set t false).getD t false) = false
      rw [listGetD_set_self, if_pos httiles]
    · show ((c.waysToBecomeTile.set t WaysToBecomeTile.clear).getD t default)
        = WaysToBecomeTile.clear
      rw [listGetD_set_self, if_pos htlen]

/-- Concrete instance of claim C4, third branch: a cell with one tile whose
North support is 1 loses the tile when the neighbour eliminates it. -/
theorem c4_on_neighbor_tile_eliminated_witness :
    (Cell.removedNeighborTile (fun _ => (1 : ℚ)) (fun _ => (0 : ℚ))
        { waysToBecomeTile := [{ north := 1, east := 2, south := 3, west := 4 }],
          tiles := [true], numRemainingTiles := 1, sumWeights := 1,
          sumWeightLogWeight := 0 } 0 Location.north).2 = some 0
    ∧ (Cell.removedNeighborTile (fun _ => (1 : ℚ)) (fun _ => (0 : ℚ))
        { waysToBecomeTile := [{ north := 1, east := 2, south := 3, west := 4 }],
          tiles := [true], numRemainingTiles := 1, sumWeights := 1,
          sumWeightLogWeight := 0 } 0 Location.north).1.tiles.getD 0 false = false :=
  ⟨((c4_on_neighbor_tile_eliminated (fun _ => (1 : ℚ)) (fun _ => (0 : ℚ))
      { waysToBecomeTile := [{ north := 1, east := 2, south := 3, west := 4 }],
        tiles := [true], numRemainingTiles := 1, sumWeights := 1,
        sumWeightLogWeight := 0 } 0 Location.north).2.2 rfl rfl).1,
   ((c4_on_neighbor_tile_eliminated (fun _ => (1 : ℚ)) (fun _ => (0 : ℚ))
      { waysToBecomeTile := [{ north := 1, east := 2, south := 3, west := 4 }],
        tiles := [true], numRemainingTiles := 1, sumWeights := 1,
        sumWeightLogWeight := 0 } 0 Location.north).2.2 rfl rfl).2.1⟩

/-! ## Claim C10: removed tiles have all support cleared, and further
elimination events for them are no-ops. -/

theorem listGetD_replicate {A : Type} (n i : Nat) (a d : A) :
    (List.replicate n a).getD i d = if i < n then a else d := by
  induction n generalizing i with
  | zero => simp [listGetD_nil]
  | succ m ih =>
    cases i with
    | zero => simp [List.replicate, listGetD_cons_zero]
    | succ k =>
      simp only [List.replicate, listGetD_cons_succ, ih]
      by_cases h : k < m
      · simp [h, Nat.succ_lt_succ h]
      · simp [h, fun hh => h (Nat.lt_of_succ_lt_succ hh)]

theorem collapseFold_tiles (p plogp : Nat → ℚ) (L : List Nat) (acc : Cell) :
    (L.foldl
      (fun acc2 t =>
        Cell.updateEntropyConstants p plogp
          { acc2 with
            waysToBecomeTile := acc2.waysToBecomeTile.set t WaysToBecomeTile.clear } t)
      acc).tiles = acc.tiles := by
  induction L generalizing acc with
  | nil => rfl
  | cons x xs ih =>
    rw [List.foldl_cons, ih]
    rfl

theorem collapseFold_numRemaining (p plogp : Nat → ℚ) (L : List Nat) (acc : Cell) :
    (L.foldl
      (fun acc2 t =>
        Cell.updateEntropyConstants p plogp
          { acc2 with
            waysToBecomeTile := acc2.waysToBecomeTile.set t WaysToBecomeTile.clear } t)
      acc).numRemainingTiles = acc.numRemainingTiles := by
  induction L generalizing acc with
  | nil => rfl
  | cons x xs ih =>
    rw [List.foldl_cons, ih]
    rfl

theorem collapseFold_ways (p plogp : Nat → ℚ) (L : List Nat) (acc : Cell) (t : Nat) :
    ((L.foldl
      (fun acc2 t2 =>
        Cell.updateEntropyConstants p plogp
          { acc2 with
            waysToBecomeTile := acc2.waysToBecomeTile.set t2 WaysToBecomeTile.clear } t2)
      acc).waysToBecomeTile.getD t default)
      = if t ∈ L then WaysToBecomeTile.clear
        else acc.waysToBecomeTile.getD t default := by
  induction L generalizing acc with
  | nil => simp
  | cons x xs ih =>
    rw [List.foldl_cons, ih]
    by_cases hx : t ∈ xs
    · rw [if_pos hx, if_pos (List.mem_cons_of_mem x hx)]
    · by_cases hxt : t = x
      · subst hxt
        rw [if_neg hx, if_pos (List.mem_cons_self t xs)]
        show (acc.waysToBecomeTile.set t WaysToBecomeTile.clear).getD t default = _
        rw [listGetD_set_self]
        by_cases hl : t < acc.waysToBecomeTile.length
        · rw [if_pos hl]
        · rw [if_neg hl, waysDefault_eq_clear]
      · have hnc : t ∉ (x :: xs) := by
          intro hmem
          rcases List.mem_cons.mp hmem with h1 | h2
          · exact hxt h1
          · exact hx h2
        rw [if_neg hx, if_neg hnc]
        show (acc.waysToBecomeTile.set x WaysToBecomeTile.clear).getD t default = _
        exact listGetD_set_ne _ _ _ _ _ (fun he => hxt he.symm)

theorem collapse_fst_eq (p plogp : Nat → ℚ) (c : Cell) (chosen : Nat) :
    Cell.collapse p plogp c chosen
      = (((List.range (c.tiles.set chosen false).length).filter
            (fun t => (c.tiles.set chosen false).getD t false)).foldl
          (fun acc2 t2 =>
            Cell.updateEntropyConstants p plogp
              { acc2 with
                waysToBecomeTile :=
                  acc2.waysToBecomeTile.set t2 WaysToBecomeTile.clear } t2)
          { c with
            tiles := (List.replicate c.tiles.length false).set chosen true,
            numRemainingTiles := 1 },
         (List.range (c.tiles.set chosen false).length).filter
            (fun t => (c.tiles.set chosen false).getD t false)) := rfl

theorem inv_mkFresh (p plogp : Nat → ℚ) (numTiles : Nat)
    (ways : List WaysToBecomeTile) (hlen : ways.length = numTiles) :
    CellSupportInvariant (mkFreshCell p plogp numTiles ways) := by
  intro t hfalse
  show ways.getD t default = WaysToBecomeTile.clear
  have hoob : numTiles ≤ t := by
    by_contra hh
    rw [show (mkFreshCell p plogp numTiles ways).tiles = List.replicate numTiles true
          from rfl,
        listGetD_replicate, if_pos (Nat.lt_of_not_le hh)] at hfalse
    simp at hfalse
  rw [listGetD_oob ways t default (by omega), waysDefault_eq_clear]

theorem inv_collapse (p plogp : Nat → ℚ) (c : Cell) (chosen : Nat)
    (hinv : CellSupportInvariant c) :
    CellSupportInvariant (Cell.collapse p plogp c chosen).1 := by
  intro t2 hfalse
  rw [collapse_fst_eq] at hfalse ⊢
  rw [collapseFold_ways]
  rw [collapseFold_tiles] at hfalse
  by_cases hmem : t2 ∈ (List.range (c.tiles.set chosen false).length).filter
      (fun t => (c.tiles.set chosen false).getD t false)
  · rw [if_pos hmem]
  · rw [if_neg hmem]
    show c.waysToBecomeTile.getD t2 default = WaysToBecomeTile.clear
    apply hinv
    by_cases hch : t2 = chosen
    · subst hch
      have hlen2 : ((List.replicate c.tiles.length false).set t2 true).length
          = c.tiles.length := by simp
      have hnl : ¬ t2 < c.tiles.length := by
        intro hlt
        rw [show ({ c with
              tiles := (List.replicate c.tiles.length false).set t2 true,
              numRemainingTiles := 1 } : Cell).tiles
            = (List.replicate c.tiles.length false).set t2 true from rfl] at hfalse
        rw [listGetD_set_self] at hfalse
        simp only [List.length_replicate] at hfalse
        rw [if_pos hlt] at hfalse
        simp at hfalse
      exact listGetD_oob c.tiles t2 false (Nat.le_of_not_lt hnl)
    · by_cases hlt : t2 < c.tiles.length
      · have hnot : ¬ ((c.tiles.set chosen false).getD t2 false = true) := by
          intro htrue
          apply hmem
          refine List.mem_filter.mpr ⟨List.mem_range.mpr (by simpa using hlt), ?_⟩
          simpa using htrue
        have heq : (c.tiles.set chosen false).getD t2 false = c.tiles.getD t2 false :=
          listGetD_set_ne c.tiles chosen t2 false false (fun he => hch he.symm)
        rw [heq] at hnot
        cases hbb : c.tiles.getD t2 false with
        | false => rfl
        | true => exact absurd hbb hnot
      · exact listGetD_oob c.tiles t2 false (Nat.le_of_not_lt hlt)

theorem inv_removedNeighborTile (p plogp : Nat → ℚ) (c : Cell) (t : Nat)
    (loc : Location) (hinv : CellSupportInvariant c) :
    CellSupportInvariant (Cell.removedNeighborTile p plogp c t loc).1 := by
  cases hval : (c.waysToBecomeTile.getD t default).get loc with
  | zero =>
    have hres : Cell.removedNeighborTile p plogp c t loc = (c, none) := by
      unfold Cell.removedNeighborTile
      rw [decrement_eq_alreadyZero _ _ hval]
    rw [hres]
    exact hinv
  | succ m =>
    cases m with
    | zero =>
      have hres : Cell.removedNeighborTile p plogp c t loc
          = Cell.removeTile p plogp
              { c with
                waysToBecomeTile :=
                  c.waysToBecomeTile.set t WaysToBecomeTile.clear } t := by
        unfold Cell.removedNeighborTile
        rw [decrement_eq_zero _ _ hval]
      rw [hres]
      intro t2 h2
      unfold Cell.removeTile Cell.updateEntropyConstants at h2 ⊢
      show (c.waysToBecomeTile.set t WaysToBecomeTile.clear).getD t2 default
        = WaysToBecomeTile.clear
      by_cases ht2 : t2 = t
      · subst ht2
        rw [listGetD_set_self]
        by_cases hl : t2 < c.waysToBecomeTile.length
        · rw [if_pos hl]
        · rw [if_neg hl, waysDefault_eq_clear]
      · rw [listGetD_set_ne _ _ _ _ _ (fun he => ht2 he.symm)]
        apply hinv
        have h2t : (c.tiles.set t false).getD t2 false = false := h2
        rwa [listGetD_set_ne _ _ _ _ _ (fun he => ht2 he.symm)] at h2t
    | succ n =>
      have hres : Cell.removedNeighborTile p plogp c t loc
          = ({ c with
                waysToBecomeTile := c.waysToBecomeTile.set t
                  ((c.waysToBecomeTile.getD t default).setLoc loc (n + 1)) }, none) := by
        unfold Cell.removedNeighborTile
        rw [decrement_eq_notZero _ _ n hval]
      rw [hres]
      intro t2 h2
      show (c.waysToBecomeTile.set t _).getD t2 default = WaysToBecomeTile.clear
      by_cases ht2 : t2 = t
      · subst ht2
        have hclear := hinv t2 h2
        rw [hclear, waysClear_get] at hval
        exact absurd hval (by omega)
      · rw [listGetD_set_ne _ _ _ _ _ (fun he => ht2 he.symm)]
        exact hinv t2 h2

theorem reachable_support_invariant (p plogp : Nat → ℚ) (c : Cell)
    (h : ReachableCell p plogp c) : CellSupportInvariant c := by
  induction h with
  | init numTiles ways hlen => exact inv_mkFresh p plogp numTiles ways hlen
  | collapseStep c2 chosen hreach hmem ih => exact inv_collapse p plogp c2 chosen ih
  | removedStep c2 t loc hreach ih => exact inv_removedNeighborTile p plogp c2 t loc ih

/-- Claim C10: in every reachable cell state, a tile absent from the
remaining set has all four support counts zero, and any further
on_neighbor_tile_eliminated call for it hits the already-zero branch,
leaves the cell unchanged, and returns None. -/
theorem c10_removed_tile_support_zero (p plogp : Nat → ℚ) (c : Cell) (t : Nat)
    (loc : Location) (hreach : ReachableCell p plogp c)
    (hremoved : c.tiles.getD t false = false) :
    c.waysToBecomeTile.getD t default = WaysToBecomeTile.clear
    ∧ Cell.removedNeighborTile p plogp c t loc = (c, none) := by
  have hclear := reachable_support_invariant p plogp c hreach t hremoved
  refine ⟨hclear, ?_⟩
  unfold Cell.removedNeighborTile
  rw [hclear, decrement_eq_alreadyZero _ _ (waysClear_get loc)]

/-- Concrete instance of claim C10: collapsing a fresh 2-tile cell onto
tile 0 removes tile 1; afterwards tile 1's support is fully cleared and a
further elimination event for tile 1 is a no-op returning None. -/
theorem c10_removed_tile_support_zero_witness :
    (Cell.collapse (fun _ => (1 : ℚ)) (fun _ => (0 : ℚ))
        (mkFreshCell (fun _ => (1 : ℚ)) (fun _ => (0 : ℚ)) 2
          [{ north := 1, east := 1, south := 1, west := 1 },
           { north := 1, east := 1, south := 1, west := 1 }]) 0).1.waysToBecomeTile.getD
      1 default = WaysToBecomeTile.clear
    ∧ Cell.removedNeighborTile (fun _ => (1 : ℚ)) (fun _ => (0 : ℚ))
        (Cell.collapse (fun _ => (1 : ℚ)) (fun _ => (0 : ℚ))
          (mkFreshCell (fun _ => (1 : ℚ)) (fun _ => (0 : ℚ)) 2
            [{ north := 1, east := 1, south := 1, west := 1 },
             { north := 1, east := 1, south := 1, west := 1 }]) 0).1 1 Location.north
      = ((Cell.collapse (fun _ => (1 : ℚ)) (fun _ => (0 : ℚ))
          (mkFreshCell (fun _ => (1 : ℚ)) (fun _ => (0 : ℚ)) 2
            [{ north := 1, east := 1, south := 1, west := 1 },
             { north := 1, east := 1, south := 1, west := 1 }]) 0).1, none) :=
  c10_removed_tile_support_zero (fun _ => (1 : ℚ)) (fun _ => (0 : ℚ))
    (Cell.collapse (fun _ => (1 : ℚ)) (fun _ => (0 : ℚ))
      (mkFreshCell (fun _ => (1 : ℚ)) (fun _ => (0 : ℚ)) 2
        [{ north := 1, east := 1, south := 1, west := 1 },
         { north := 1, east := 1, south := 1, west := 1 }]) 0).1 1 Location.north
    (ReachableCell.collapseStep _ 0
      (ReachableCell.init 2
        [{ north := 1, east := 1, south := 1, west := 1 },
         { north := 1, east := 1, south := 1, west := 1 }] rfl)
      (by decide))
    (by decide)

/-! ## Claims C1, C2, C3, C7: the Wave of src/lib.rs.

The only Wave implementation under src/ is the earlier revision in
src/lib.rs.  The theorems below evaluate that code and show it violates
the four Wave-level claims of the spec; the newer cell module
(src/cells.rs) already provides the spec-conforming building blocks, but
the Wave that would use them is not in the tree. -/

/-- Claim C1 (code bug): Wave::get_highest_entropy returns every cell —
sorted by DESCENDING entropy, not filtered to the minimum, and with
collapsed cells included — and Wave::collapse picks uniformly from that
whole list.  On a 2-cell wave whose cell 0 is already collapsed, the
candidate list is [1, 0], the rng draw 3 selects the collapsed cell 0,
and the step on it is a no-op that still reports true. -/
theorem c1_observation_ignores_entropy_and_collapsed :
    OldWave.getHighestEntropy (fun _ => (-1 : Int))
      { cells := [{ tiles := [0], waysToBecomePattern := [] },
                  { tiles := [0, 1], waysToBecomePattern := [] }],
        xCells := 2, yCells := 1 } = [1, 0]
    ∧ (({ cells := [{ tiles := [0], waysToBecomePattern := [] },
                    { tiles := [0, 1], waysToBecomePattern := [] }],
          xCells := 2, yCells := 1 } : OldWave).cells.getD 0 default).tiles.length = 1
    ∧ (OldWave.getHighestEntropy (fun _ => (-1 : Int))
        { cells := [{ tiles := [0], waysToBecomePattern := [] },
                    { tiles := [0, 1], waysToBecomePattern := [] }],
          xCells := 2, yCells := 1 }).getD
        (3 % (OldWave.getHighestEntropy (fun _ => (-1 : Int))
          { cells := [{ tiles := [0], waysToBecomePattern := [] },
                      { tiles := [0, 1], waysToBecomePattern := [] }],
            xCells := 2, yCells := 1 }).length) 0 = 0
    ∧ OldWave.collapse (fun _ => (-1 : Int))
        { cells := [{ tiles := [0], waysToBecomePattern := [] },
                    { tiles := [0, 1], waysToBecomePattern := [] }],
          xCells := 2, yCells := 1 } 3 0
      = ({ cells := [{ tiles := [0], waysToBecomePattern := [] },
                     { tiles := [0, 1], waysToBecomePattern := [] }],
           xCells := 2, yCells := 1 }, true) := by
  refine ⟨by decide, by decide, by decide, by decide⟩

/-- Claim C2 (code bug): the propagation loop of Wave::collapse is FIFO and
fans out North, East, South, West, but Cell::removed_neighbor_tile of this
revision returns unit, so eliminations in neighbours are never enqueued:
the drained events are always exactly the initial queue.  Concretely, on a
2 x 1 wave, draining the single event (cell 0, tile 0) eliminates tile 1
from the neighbouring cell 1 (its remaining set shrinks from [0, 1] to
[0]) yet the processed queue stays [(0, 0)] with no event for tile 1. -/
theorem c2_propagation_does_not_cascade :
    (∀ (q : List (Nat × Nat)) (w : OldWave), (OldWave.drain q w).2 = q)
    ∧ ((OldWave.drain [(0, 0)]
        { cells := [{ tiles := [0],
                      waysToBecomePattern :=
                        [(0, { north := [0,1], east := [0,1],
                               south := [0,1], west := [0,1] })] },
                    { tiles := [0, 1],
                      waysToBecomePattern :=
                        [(0, { north := [0,1], east := [0,1],
                               south := [0,1], west := [0,1] }),
                         (1, { north := [0], east := [0],
                               south := [0], west := [0] })] }],
          xCells := 2, yCells := 1 }).1.cells.getD 1 default).tiles = [0]
    ∧ (OldWave.drain [(0, 0)]
        { cells := [{ tiles := [0],
                      waysToBecomePattern :=
                        [(0, { north := [0,1], east := [0,1],
                               south := [0,1], west := [0,1] })] },
                    { tiles := [0, 1],
                      waysToBecomePattern :=
                        [(0, { north := [0,1], east := [0,1],
                               south := [0,1], west := [0,1] }),
                         (1, { north := [0], east := [0],
                               south := [0], west := [0] })] }],
          xCells := 2, yCells := 1 }).2 = [(0, 0)] := by
  refine ⟨?_, by decide, by decide⟩
  intro q
  induction q with
  | nil => intro w; rfl
  | cons e rest ih =>
    intro w
    obtain ⟨ci, t⟩ := e
    exact congrArg (List.cons (ci, t)) (ih _)

/-- Claim C3 (code bug): Wave::collapse of src/lib.rs returns a plain bool
and always returns true: there is no Error type, no AlreadyCollapsed check
on a finished wave, and no Contradiction report.  Concretely it returns
true on a fully collapsed 1 x 1 wave (leaving it unchanged), and returns
true on a 2 x 1 wave whose propagation empties cell 1's remaining set (the
contradiction the claim says must be reported as Contradiction(1)). -/
theorem c3_collapse_returns_no_errors :
    (∀ (plogp : Nat → Int) (w : OldWave) (r rTile : Nat),
      (OldWave.collapse plogp w r rTile).2 = true)
    ∧ OldWave.collapse (fun _ => (-1 : Int))
        { cells := [{ tiles := [0],
                      waysToBecomePattern :=
                        [(0, { north := [0], east := [0],
                               south := [0], west := [0] })] }],
          xCells := 1, yCells := 1 } 0 0
      = ({ cells := [{ tiles := [0],
                       waysToBecomePattern :=
                         [(0, { north := [0], east := [0],
                                south := [0], west := [0] })] }],
           xCells := 1, yCells := 1 }, true)
    ∧ ((OldWave.collapse (fun _ => (-1 : Int))
        { cells := [{ tiles := [0, 1],
                      waysToBecomePattern :=
                        [(0, { north := [0,1], east := [0,1],
                               south := [0,1], west := [0,1] }),
                         (1, { north := [0,1], east := [0,1],
                               south := [0,1], west := [0,1] })] },
                    { tiles := [1],
                      waysToBecomePattern :=
                        [(1, { north := [1], east := [1],
                               south := [1], west := [1] })] }],
          xCells := 2, yCells := 1 } 0 0).1.cells.getD 1 default).tiles = []
    ∧ (OldWave.collapse (fun _ => (-1 : Int))
        { cells := [{ tiles := [0, 1],
                      waysToBecomePattern :=
                        [(0, { north := [0,1], east := [0,1],
                               south := [0,1], west := [0,1] }),
                         (1, { north := [0,1], east := [0,1],
                               south := [0,1], west := [0,1] })] },
                    { tiles := [1],
                      waysToBecomePattern :=
                        [(1, { north := [1], east := [1],
                               south := [1], west := [1] })] }],
          xCells := 2, yCells := 1 } 0 0).2 = true := by
  exact ⟨fun plogp w r rTile => rfl, by decide, by decide, by decide⟩

/-- Claim C7 (code bug): both random draws of Wave::collapse come from
rand::thread_rng() inside the function — the revision accepts no seed or
rng argument — so the output is a function of ambient OS randomness, not
of the inputs.  With the two internal draws surfaced as oracle parameters,
two runs on the identical wave differ when the weighted-sampling draw
differs (collapsing the single cell to tile 0 versus tile 1), which no
caller-supplied seed can prevent. -/
theorem c7_output_depends_on_thread_rng :
    (OldWave.collapse (fun _ => (-1 : Int))
      { cells := [{ tiles := [0, 1],
                    waysToBecomePattern :=
                      [(0, { north := [0,1], east := [0,1],
                             south := [0,1], west := [0,1] }),
                       (1, { north := [0,1], east := [0,1],
                             south := [0,1], west := [0,1] })] }],
        xCells := 1, yCells := 1 } 0 0).1
    ≠ (OldWave.collapse (fun _ => (-1 : Int))
      { cells := [{ tiles := [0, 1],
                    waysToBecomePattern :=
                      [(0, { north := [0,1], east := [0,1],
                             south := [0,1], west := [0,1] }),
                       (1, { north := [0,1], east := [0,1],
                             south := [0,1], west := [0,1] })] }],
        xCells := 1, yCells := 1 } 0 1).1 := by decide
